import Mathlib

/-!
Verification of the travel-optimizer itinerary core.

This file gives a shallow embedding of the repository's core modules
(`src/utils.py`, `src/scorer.py`, `src/planner.py`) and proves the
specification's testable properties about them.

Conventions of the embedding:
* Python `float` values are modelled as exact rationals (`ℚ`);
  Python `int` as `ℤ`.
* Python's builtin `round` (banker's rounding, round-half-to-even) is
  modelled by `pythonRound`; `round(x, 2)` by `round2`.
* Python dicts holding POI records are modelled by the structure `POI`
  with `Option` fields exactly where the source reads them through
  `.get(key, default)`; fields the source indexes directly (`lat`,
  `lon`) are total.
* `haversine_km` is transcendental (sin/cos/atan2/sqrt); the planner is
  therefore parametrised by an arbitrary distance function `Dist` — all
  properties proved below hold for every distance function, hence in
  particular for the haversine distance.
* `list.sort(key=..., reverse=True)` (a stable descending sort) is
  modelled by a stable insertion sort `sortDescBy`, which produces the
  unique stable descending ordering, i.e. the same list Python produces.
* Dict identity / in-place mutation (needed for the "planner does not
  mutate caller records" frame property) is modelled separately by an
  explicit heap of numbered objects (`Heap`, `plan_itinerary_heap`).
-/

/-- Python's builtin `round` on an exact rational: round half to even. -/
def pythonRound (q : ℚ) : ℤ :=
  if q - ⌊q⌋ = 1/2 then (if ⌊q⌋ % 2 = 0 then ⌊q⌋ else ⌊q⌋ + 1) else round q

/-- Python's `round(x, 2)` (rounding to cents) on an exact rational. -/
def round2 (q : ℚ) : ℚ := (pythonRound (q * 100) : ℚ) / 100

/-- A POI record (a Python dict).  `lat`/`lon` are read by direct
indexing in the source (`poi["lat"]`), all other fields through
`.get(key, default)`, hence the `Option` types. -/
structure POI where
  name : Option String := none
  category : Option String := none
  lat : ℚ := 0
  lon : ℚ := 0
  avg_cost : Option ℚ := none
  visit_duration_mins : Option ℤ := none
  rating : Option ℚ := none
deriving DecidableEq, Repr

/-- `float(poi.get("avg_cost", 0.0))` — planner lines 38, 79, 106. -/
def poiCost (p : POI) : ℚ := p.avg_cost.getD 0

/-- `int(poi.get("visit_duration_mins", 60))` — planner lines 39, 80, 94. -/
def poiDur (p : POI) : ℤ := p.visit_duration_mins.getD 60

/-- A preference mapping (Python dict from category to weight). -/
abbrev Prefs := List (String × ℚ)

/-- `prefs.get(cat, 0.0)`. -/
def prefGet (prefs : Prefs) (cat : String) : ℚ := (prefs.lookup cat).getD 0

/-- Python's `str.lower()`: lowercase every character.  (Lean's own
`String.toLower` is extensionally the same map but is defined by
well-founded recursion over byte positions, which the kernel cannot
evaluate; this character-list form is used instead.) -/
def strLower (s : String) : String := ⟨s.data.map Char.toLower⟩

/-- `score_poi` from `src/scorer.py`:
`poi.get("category","").lower()`, `float(poi.get("rating", 4.0))`,
`prefs.get(cat, 0.0) * 2.0`, returning `base + pref_boost`. -/
def score_poi (poi : POI) (prefs : Prefs) : ℚ :=
  (poi.rating.getD 4) + prefGet prefs (strLower (poi.category.getD "")) * 2

/-- `travel_minutes_km` from `src/utils.py`: speed lookup with default
28.0, minutes `dist/speed*60`, overhead lookup with default 8, and
`int(round(mins + overhead))`. -/
def travel_minutes_km (dist_km : ℚ) (mode : String) : ℤ :=
  let speed_kmh : ℚ := (([("walk", (4.5 : ℚ)), ("transit", 18.0), ("drive", 28.0)]).lookup mode).getD 28.0
  let mins : ℚ := (dist_km / speed_kmh) * 60.0
  let overhead : ℤ := (([("walk", (3 : ℤ)), ("transit", 10), ("drive", 8)]).lookup mode).getD 8
  pythonRound (mins + (overhead : ℚ))

/-- The type of the distance function (`haversine_km` in the source). -/
abbrev DistFn := ℚ → ℚ → ℚ → ℚ → ℚ

/-- A working-copy POI dict carrying the planner's per-run annotations
`_travel_from_prev_mins` / `_travel_from_prev_km` (set at planner
lines 73–74 before the item is ever read back, so they are total
here). -/
structure Item where
  poi : POI
  travel_from_prev_mins : ℤ
  travel_from_prev_km : ℚ
deriving DecidableEq, Repr

/-- `float(chosen.get("avg_cost", 0.0))` on an annotated item. -/
def itemCost (it : Item) : ℚ := poiCost it.poi

/-- Stable insertion of `a` into a descending-sorted list: `a` is
placed before the first element of strictly smaller key, i.e. after all
elements of equal key (stability). -/
def insertDescBy (key : α → ℚ) (a : α) : List α → List α
  | [] => [a]
  | b :: bs => if key b < key a then a :: b :: bs else b :: insertDescBy key a bs

/-- Stable descending sort by `key`: the embedding of
`list.sort(key=key, reverse=True)` (planner line 32).  A stable
descending sort's output is uniquely determined, so this insertion sort
produces exactly the list Python's stable sort produces. -/
def sortDescBy (key : α → ℚ) (l : List α) : List α :=
  l.foldl (fun acc a => insertDescBy key a acc) []

/-- `daily_time_budget = 8 * 60` (planner line 17). -/
def daily_time_budget : ℤ := 8 * 60

/-- Travel from `current` to candidate `p` (planner lines 43–47 and
67–71): `(0, 0.0)` when `current is None`, otherwise haversine distance
and `travel_minutes_km`. -/
def travelOf (dist : DistFn) (mode : String) (current : Option Item) (p : POI) : ℤ × ℚ :=
  match current with
  | none => (0, 0)
  | some cur =>
    let km := dist cur.poi.lat cur.poi.lon p.lat p.lon
    (travel_minutes_km km mode, km)

/-- The inner candidate scan (planner lines 35–59): walk the remaining
pool with index `i`, skip candidates whose cost exceeds the remaining
budget or whose travel+visit time would push the day past
`daily_time_budget`, and keep the index of the best
`score - 0.5*travel_km - 0.02*cost` value (strictly better than the
accumulator, which starts at `(None, -1e9)`). -/
def scanBest (dist : DistFn) (prefs : Prefs) (mode : String) (current : Option Item)
    (day_time : ℤ) (rb : ℚ) : List POI → ℕ → Option ℕ × ℚ → Option ℕ × ℚ
  | [], _, best => best
  | p :: rest, i, best =>
    if poiCost p > rb then
      scanBest dist prefs mode current day_time rb rest (i + 1) best
    else
      if day_time + (travelOf dist mode current p).1 + poiDur p > daily_time_budget then
        scanBest dist prefs mode current day_time rb rest (i + 1) best
      else
        let value := score_poi p prefs - (travelOf dist mode current p).2 * 0.5 - poiCost p * 0.02
        if value > best.2 then
          scanBest dist prefs mode current day_time rb rest (i + 1) (some i, value)
        else
          scanBest dist prefs mode current day_time rb rest (i + 1) best

/-- The per-day mutable state of the slot loop (planner lines 26–29 and
the shared `remaining`/`remaining_budget`). -/
structure DayState where
  day_items : List Item
  day_time : ℤ
  day_cost : ℚ
  current : Option Item
  rb : ℚ
  remaining : List POI

/-- The slot loop (planner lines 34–83): up to `k` slots; stop when the
scan finds no eligible candidate; otherwise pop the chosen candidate
from the pool, annotate it with its travel-from-previous data
(`round(travel_km, 2)` for the km field), append it to the day, update
`current`, the remaining budget and the day's cost/time. -/
def slotStep (dist : DistFn) (mode : String) (s : DayState) (p : POI) (j : ℕ) : DayState :=
  let t := travelOf dist mode s.current p
  let chosen : Item := ⟨p, t.1, round2 t.2⟩
  { day_items := s.day_items ++ [chosen]
    day_time := s.day_time + t.1 + poiDur p
    day_cost := s.day_cost + poiCost p
    current := some chosen
    rb := s.rb - poiCost p
    remaining := s.remaining.eraseIdx j }

/-- See the doc comment above `slotStep`. -/
def runSlots (dist : DistFn) (prefs : Prefs) (mode : String) : ℕ → DayState → DayState
  | 0, s => s
  | Nat.succ k, s =>
    match (scanBest dist prefs mode s.current s.day_time s.rb s.remaining 0 (none, -(1e9 : ℚ))).1 with
    | none => s
    | some j =>
      match s.remaining[j]? with
      | none => s
      | some p => runSlots dist prefs mode k (slotStep dist mode s p j)

/-- One timeline row (planner lines 97–107). -/
structure TEntry where
  name : String
  category : String
  start_min : ℤ
  end_min : ℤ
  travel_from_prev_mins : ℤ
  travel_from_prev_km : ℚ
  lat : ℚ
  lon : ℚ
  avg_cost : ℚ
deriving DecidableEq, Repr

/-- The timeline row built from item `it` with clock times `s`/`e`
(planner lines 97–107). -/
def mkEntry (it : Item) (s e : ℤ) : TEntry :=
  ⟨it.poi.name.getD "Unknown", it.poi.category.getD "other", s, e,
   it.travel_from_prev_mins, it.travel_from_prev_km, it.poi.lat, it.poi.lon, poiCost it.poi⟩

/-- The timeline walk (planner lines 88–108): advance the cursor by the
item's recorded travel minutes for every item after the first
(`prev is not None`), then `start = cursor`, `end = start + duration`,
cursor moves to `end`. -/
def timelineGo (prev : Option Item) (cursor : ℤ) : List Item → List TEntry
  | [] => []
  | it :: rest =>
    let c := match prev with | none => cursor | some _ => cursor + it.travel_from_prev_mins
    let e := c + poiDur it.poi
    mkEntry it c e :: timelineGo (some it) e rest

/-- `t_cursor = start_hour * 60` then the walk (planner lines 85–108). -/
def buildTimeline (start_hour : ℤ) (items : List Item) : List TEntry :=
  timelineGo none (start_hour * 60) items

/-- One day record of the output (planner lines 110–116). -/
structure Day where
  day : ℤ
  items : List Item
  timeline : List TEntry
  day_cost : ℚ
  day_time_mins : ℤ
deriving DecidableEq, Repr

/-- The itinerary output (planner lines 21, 121–123). -/
structure Itinerary where
  days : List Day
  total_cost : ℚ
  total_time_mins : ℤ
  remaining_budget : ℚ
deriving DecidableEq, Repr

/-- The day loop (planner lines 25–119): for each day, sort the shared
pool by score descending, run the slot loop with a fresh 480-minute day
clock, build the timeline, emit the day record (`day_cost` rounded to
cents) and accumulate the unrounded cost and the time into the trip
totals. -/
def planLoop (dist : DistFn) (prefs : Prefs) (mode : String) (slots : ℕ) (start_hour : ℤ) :
    ℕ → ℕ → ℚ → List POI → ℚ → ℤ → List Day → List Day × ℚ × ℤ × ℚ
  | 0, _, rb, _, tc, tt, acc => (acc.reverse, tc, tt, rb)
  | Nat.succ n, d, rb, pool, tc, tt, acc =>
    let sorted := sortDescBy (fun p => score_poi p prefs) pool
    let s := runSlots dist prefs mode slots ⟨[], 0, 0, none, rb, sorted⟩
    let day : Day := ⟨(d : ℤ) + 1, s.day_items, buildTimeline start_hour s.day_items,
                      round2 s.day_cost, s.day_time⟩
    planLoop dist prefs mode slots start_hour n (d + 1) s.rb s.remaining
      (tc + s.day_cost) (tt + s.day_time) (day :: acc)

/-- `plan_itinerary` from `src/planner.py`.  `dist` stands for
`haversine_km`; `days` is a Python int, so `range(days)` iterates
`days.toNat` times; the working pool is a value copy of the caller's
list (`remaining = [dict(p) for p in pois]`, line 19 — object identity
is modelled separately by `plan_itinerary_heap` below); the final
`total_cost` and `remaining_budget` are rounded to cents
(lines 121–123). -/
def plan_itinerary (dist : DistFn) (pois : List POI) (days : ℤ) (budget : ℚ) (prefs : Prefs)
    (pace : String := "moderate") (start_hour : ℤ := 10) (travel_mode : String := "drive") :
    Itinerary :=
  let slots : ℕ := (([("relaxed", 3), ("moderate", 4), ("packed", 5)] : List (String × ℕ)).lookup pace).getD 4
  let remaining : List POI := pois
  let r := planLoop dist prefs travel_mode slots start_hour days.toNat 0 (budget : ℚ) remaining 0 0 []
  ⟨r.1, round2 r.2.1, r.2.2.1, round2 r.2.2.2⟩

/-- All items of an itinerary's day list, in order. -/
def allItems (ds : List Day) : List Item := (ds.map Day.items).flatten

/-- The exact (unrounded) sum of the selected items' costs. -/
def itemsCost (ds : List Day) : ℚ := ((allItems ds).map itemCost).sum

/-- Sum of the costs of a list of items. -/
def itemListCost (items : List Item) : ℚ := (items.map itemCost).sum

/-- The first item placed into a day carries zero travel annotations
(it was chosen while `current is None`). -/
def headTravelZero (items : List Item) : Prop :=
  ∀ e, items.head? = some e → e.travel_from_prev_mins = 0 ∧ e.travel_from_prev_km = 0

/-- Invariant of the slot loop state: the day is empty exactly when
`current is None`, and the day's first item has zero travel. -/
def SInv (s : DayState) : Prop :=
  (s.day_items = [] ↔ s.current = none) ∧ headTravelZero s.day_items

/-- The facts established about every emitted day record: the day time
respects the 480-minute ceiling, the timeline is the timeline walk over
the day's items, and the first item carries zero travel. -/
def GoodDay (start_hour : ℤ) (day : Day) : Prop :=
  day.day_time_mins ≤ daily_time_budget ∧
  day.timeline = buildTimeline start_hour day.items ∧
  headTravelZero day.items

/-!
The heap model: the same planner, but with POI dicts living at numbered
addresses so that object identity, `remaining = [dict(p) for p in pois]`
(line 19) and the in-place writes
`chosen["_travel_from_prev_mins"] = ...` /
`chosen["_travel_from_prev_km"] = ...` (lines 73–74) are explicit.
The caller hands over a list of addresses of its own records; the copy
comprehension allocates the copies at fresh addresses `base, base+1, …`
and only those copies are ever written.
-/

/-- The contents of one POI dict object: its POI fields plus the two
optional per-run annotation keys. -/
structure Obj where
  poi : POI
  tmins : Option ℤ := none
  tkm : Option ℚ := none
deriving DecidableEq, Repr

/-- A heap of dict objects, indexed by address. -/
def Heap : Type := ℕ → Obj

/-- Write object `o` at address `a`. -/
def hwrite (h : Heap) (a : ℕ) (o : Obj) : Heap := fun x => if x = a then o else h x

/-- `[dict(p) for p in pois]`: allocate value copies of the listed
objects at consecutive fresh addresses starting at `b`. -/
def allocCopies (h : Heap) (b : ℕ) : List Obj → Heap
  | [] => h
  | o :: os => allocCopies (hwrite h b o) (b + 1) os

/-- Travel from the current dict (by address) to candidate POI `p`. -/
def travelOfH (dist : DistFn) (mode : String) (h : Heap) (current : Option ℕ) (p : POI) : ℤ × ℚ :=
  match current with
  | none => (0, 0)
  | some c =>
    let km := dist (h c).poi.lat (h c).poi.lon p.lat p.lon
    (travel_minutes_km km mode, km)

/-- The candidate scan of the heap planner (planner lines 35–59), over
a pool of addresses. -/
def scanBestH (dist : DistFn) (prefs : Prefs) (mode : String) (h : Heap) (current : Option ℕ)
    (day_time : ℤ) (rb : ℚ) : List ℕ → ℕ → Option ℕ × ℚ → Option ℕ × ℚ
  | [], _, best => best
  | r :: rest, i, best =>
    if poiCost (h r).poi > rb then
      scanBestH dist prefs mode h current day_time rb rest (i + 1) best
    else
      if day_time + (travelOfH dist mode h current (h r).poi).1 + poiDur (h r).poi > daily_time_budget then
        scanBestH dist prefs mode h current day_time rb rest (i + 1) best
      else
        let value := score_poi (h r).poi prefs - (travelOfH dist mode h current (h r).poi).2 * 0.5
          - poiCost (h r).poi * 0.02
        if value > best.2 then
          scanBestH dist prefs mode h current day_time rb rest (i + 1) (some i, value)
        else
          scanBestH dist prefs mode h current day_time rb rest (i + 1) best

/-- The per-day state of the heap planner's slot loop. -/
structure DayStateH where
  day_items : List ℕ
  day_time : ℤ
  day_cost : ℚ
  current : Option ℕ
  rb : ℚ
  remaining : List ℕ
  heap : Heap

/-- The slot loop of the heap planner (planner lines 34–83): the write
at lines 73–74 is an `hwrite` at the chosen candidate's address. -/
def runSlotsH (dist : DistFn) (prefs : Prefs) (mode : String) : ℕ → DayStateH → DayStateH
  | 0, s => s
  | Nat.succ k, s =>
    match (scanBestH dist prefs mode s.heap s.current s.day_time s.rb s.remaining 0 (none, -(1e9 : ℚ))).1 with
    | none => s
    | some j =>
      match s.remaining[j]? with
      | none => s
      | some r =>
        let p := (s.heap r).poi
        let t := travelOfH dist mode s.heap s.current p
        let h2 := hwrite s.heap r ⟨(s.heap r).poi, some t.1, some (round2 t.2)⟩
        runSlotsH dist prefs mode k
          { day_items := s.day_items ++ [r]
            day_time := s.day_time + t.1 + poiDur p
            day_cost := s.day_cost + poiCost p
            current := some r
            rb := s.rb - poiCost p
            remaining := s.remaining.eraseIdx j
            heap := h2 }

/-- The timeline walk of the heap planner (planner lines 85–108),
reading the annotation keys through `.get(key, default)`. -/
def timelineGoH (h : Heap) (prev : Option ℕ) (cursor : ℤ) : List ℕ → List TEntry
  | [] => []
  | a :: rest =>
    let tm := (h a).tmins.getD 0
    let c := match prev with | none => cursor | some _ => cursor + tm
    let e := c + poiDur (h a).poi
    ⟨(h a).poi.name.getD "Unknown", (h a).poi.category.getD "other", c, e,
     tm, (h a).tkm.getD 0, (h a).poi.lat, (h a).poi.lon, poiCost (h a).poi⟩
      :: timelineGoH h (some a) e rest

/-- One output day of the heap planner; `items` are the addresses of
the annotated dicts placed into the day. -/
structure DayH where
  day : ℤ
  items : List ℕ
  timeline : List TEntry
  day_cost : ℚ
  day_time_mins : ℤ

/-- The day loop of the heap planner (planner lines 25–119). -/
def planLoopH (dist : DistFn) (prefs : Prefs) (mode : String) (slots : ℕ) (start_hour : ℤ) :
    ℕ → ℕ → ℚ → List ℕ → Heap → ℚ → ℤ → List DayH → (List DayH × ℚ × ℤ × ℚ) × Heap
  | 0, _, rb, _, h, tc, tt, acc => ((acc.reverse, tc, tt, rb), h)
  | Nat.succ n, d, rb, pool, h, tc, tt, acc =>
    let sorted := sortDescBy (fun a => score_poi (h a).poi prefs) pool
    let s := runSlotsH dist prefs mode slots ⟨[], 0, 0, none, rb, sorted, h⟩
    let day : DayH := ⟨(d : ℤ) + 1, s.day_items, timelineGoH s.heap none (start_hour * 60) s.day_items,
                       round2 s.day_cost, s.day_time⟩
    planLoopH dist prefs mode slots start_hour n (d + 1) s.rb s.remaining s.heap
      (tc + s.day_cost) (tt + s.day_time) (day :: acc)

/-- `plan_itinerary` over the explicit heap: the caller's POI list is
the address list `addrs` (its records live in `h0`); line 19 allocates
value copies at the fresh addresses `base, base+1, …` and the planner
works exclusively on those copies.  Returns the itinerary data together
with the final heap. -/
def plan_itinerary_heap (dist : DistFn) (h0 : Heap) (addrs : List ℕ) (base : ℕ)
    (days : ℤ) (budget : ℚ) (prefs : Prefs) (pace : String := "moderate")
    (start_hour : ℤ := 10) (travel_mode : String := "drive") :
    (List DayH × ℚ × ℤ × ℚ) × Heap :=
  let slots : ℕ := (([("relaxed", 3), ("moderate", 4), ("packed", 5)] : List (String × ℕ)).lookup pace).getD 4
  let objs := addrs.map h0
  let h1 := allocCopies h0 base objs
  let remaining := List.range' base objs.length
  let r := planLoopH dist prefs travel_mode slots start_hour days.toNat 0 budget remaining h1 0 0 []
  ((r.1.1, round2 r.1.2.1, r.1.2.2.1, round2 r.1.2.2.2), r.2)

/-! ### Concrete fixtures used in witnesses and counterexamples -/

/-- A trivial distance function (all distances zero). -/
def dist0 : DistFn := fun _ _ _ _ => 0

/-- A fully populated POI fixture. -/
def poiA : POI :=
  { name := some "A", category := some "food", lat := 0, lon := 0,
    avg_cost := some 10, visit_duration_mins := some 30, rating := some 5 }

/-- A POI whose cost (`0.014`) is not a whole number of cents. -/
def poiSub : POI := { avg_cost := some (7/500) }

/-- A POI whose category carries an upper-case letter. -/
def poiCap : POI := { category := some "Food", rating := some 4 }

/-- The timeline entry produced for `poiA` as sole stop of a day
starting at hour 10. -/
def entryA : TEntry := ⟨"A", "food", 600, 630, 0, 0, 0, 0, 10⟩

/-- The day produced by planning `[poiA]` for one day starting at
hour 10. -/
def dayA : Day := ⟨1, [⟨poiA, 0, 0⟩], [entryA], 10, 30⟩

/-- A heap fixture: every address holds a copy of `poiA`. -/
def heapA : Heap := fun _ => ⟨poiA, none, none⟩

/-! ### Basic lemmas about rounding -/

theorem round2_zero : round2 0 = 0 := by
  simp [round2, pythonRound]

theorem pythonRound_nonneg {q : ℚ} (h : 0 ≤ q) : 0 ≤ pythonRound q := by
  unfold pythonRound
  split
  · split
    · exact Int.floor_nonneg.mpr h
    · have := Int.floor_nonneg.mpr h
      omega
  · rw [round_eq]
    have : (0 : ℚ) ≤ q + 1/2 := by linarith
    exact Int.floor_nonneg.mpr this

theorem round2_nonneg {q : ℚ} (h : 0 ≤ q) : 0 ≤ round2 q := by
  unfold round2
  have h1 : (0 : ℚ) ≤ q * 100 := by linarith
  have h2 : (0 : ℤ) ≤ pythonRound (q * 100) := pythonRound_nonneg h1
  positivity

/-! ### Permutation lemmas about the sort and the pool pop -/

open scoped List

theorem insertDescBy_perm (key : α → ℚ) (a : α) (l : List α) :
    insertDescBy key a l ~ a :: l := by
  induction l with
  | nil => simp [insertDescBy]
  | cons b bs ih =>
    unfold insertDescBy
    split
    · exact List.Perm.refl _
    · exact (ih.cons b).trans (List.Perm.swap a b bs)

theorem foldl_insertDescBy_perm (key : α → ℚ) :
    ∀ (l acc : List α), l.foldl (fun acc a => insertDescBy key a acc) acc ~ l ++ acc
  | [], acc => by simp
  | x :: xs, acc => by
    have h1 := foldl_insertDescBy_perm key xs (insertDescBy key x acc)
    have h2 : insertDescBy key x acc ~ x :: acc := insertDescBy_perm key x acc
    calc (x :: xs).foldl (fun acc a => insertDescBy key a acc) acc
        = xs.foldl (fun acc a => insertDescBy key a acc) (insertDescBy key x acc) := rfl
      _ ~ xs ++ insertDescBy key x acc := h1
      _ ~ xs ++ (x :: acc) := (h2.append_left xs)
      _ ~ x :: (xs ++ acc) := List.perm_middle
      _ = (x :: xs) ++ acc := rfl

theorem sortDescBy_perm (key : α → ℚ) (l : List α) : sortDescBy key l ~ l := by
  have := foldl_insertDescBy_perm key l []
  simpa [sortDescBy] using this

theorem cons_eraseIdx_perm :
    ∀ (l : List α) (j : ℕ) (p : α), l[j]? = some p → p :: l.eraseIdx j ~ l
  | [], j, p, h => by simp at h
  | a :: as, 0, p, h => by
    simp at h
    subst h
    simp [List.eraseIdx]
  | a :: as, j + 1, p, h => by
    simp only [List.getElem?_cons_succ] at h
    have ih := cons_eraseIdx_perm as j p h
    calc p :: (a :: as).eraseIdx (j + 1)
        = p :: a :: as.eraseIdx j := rfl
      _ ~ a :: p :: as.eraseIdx j := List.Perm.swap _ _ _
      _ ~ a :: as := ih.cons a

/-! ### Specification of the candidate scan -/

/-- Every index the scan can return either comes from the accumulator
or points at a candidate that passed both the budget check and the
480-minute check. -/
theorem scanBest_spec (dist : DistFn) (prefs : Prefs) (mode : String) (current : Option Item)
    (day_time : ℤ) (rb : ℚ) (Q : ℕ → Prop) :
    ∀ (l : List POI) (i : ℕ) (best : Option ℕ × ℚ),
      (∀ j, best.1 = some j → Q j) →
      (∀ k p, l[k]? = some p → ¬(poiCost p > rb) →
        day_time + (travelOf dist mode current p).1 + poiDur p ≤ daily_time_budget → Q (i + k)) →
      ∀ j, (scanBest dist prefs mode current day_time rb l i best).1 = some j → Q j
  | [], i, best, hacc, _, j, hres => hacc j hres
  | p :: rest, i, best, hacc, hl, j, hres => by
    have hl' : ∀ k q, rest[k]? = some q → ¬(poiCost q > rb) →
        day_time + (travelOf dist mode current q).1 + poiDur q ≤ daily_time_budget →
        Q ((i + 1) + k) := by
      intro k q hk hc ht
      have := hl (k + 1) q (by simpa using hk) hc ht
      simpa [Nat.add_assoc, Nat.add_comm 1 k] using this
    unfold scanBest at hres
    by_cases hc : poiCost p > rb
    · rw [if_pos hc] at hres
      exact scanBest_spec dist prefs mode current day_time rb Q rest (i + 1) best hacc hl' j hres
    · rw [if_neg hc] at hres
      by_cases ht : day_time + (travelOf dist mode current p).1 + poiDur p > daily_time_budget
      · rw [if_pos ht] at hres
        exact scanBest_spec dist prefs mode current day_time rb Q rest (i + 1) best hacc hl' j hres
      · rw [if_neg ht] at hres
        by_cases hv : score_poi p prefs - (travelOf dist mode current p).2 * 0.5 - poiCost p * 0.02 > best.2
        · rw [if_pos hv] at hres
          refine scanBest_spec dist prefs mode current day_time rb Q rest (i + 1) (some i, _) ?_ hl' j hres
          intro j' hj'
          simp only [Option.some.injEq] at hj'
          subst hj'
          have := hl 0 p (by simp) hc (by omega)
          simpa using this
        · rw [if_neg hv] at hres
          exact scanBest_spec dist prefs mode current day_time rb Q rest (i + 1) best hacc hl' j hres

/-! ### The slot-loop master invariant -/

theorem itemListCost_append (l : List Item) (x : Item) :
    itemListCost (l ++ [x]) = itemListCost l + itemCost x := by
  simp [itemListCost]

theorem runSlots_master (dist : DistFn) (prefs : Prefs) (mode : String) :
    ∀ (k : ℕ) (s : DayState),
      ((runSlots dist prefs mode k s).day_items.map Item.poi ++ (runSlots dist prefs mode k s).remaining
        ~ s.day_items.map Item.poi ++ s.remaining) ∧
      (runSlots dist prefs mode k s).rb + (runSlots dist prefs mode k s).day_cost = s.rb + s.day_cost ∧
      (runSlots dist prefs mode k s).day_cost - itemListCost (runSlots dist prefs mode k s).day_items
        = s.day_cost - itemListCost s.day_items ∧
      (s.day_time ≤ daily_time_budget → (runSlots dist prefs mode k s).day_time ≤ daily_time_budget) ∧
      (0 ≤ s.rb → 0 ≤ (runSlots dist prefs mode k s).rb) ∧
      (SInv s → SInv (runSlots dist prefs mode k s)) ∧
      ((∀ p ∈ s.remaining, 0 ≤ poiCost p) →
        (∀ p ∈ (runSlots dist prefs mode k s).remaining, 0 ≤ poiCost p) ∧
        (runSlots dist prefs mode k s).rb ≤ s.rb ∧
        (∀ it ∈ (runSlots dist prefs mode k s).day_items, it ∈ s.day_items ∨ itemCost it ≤ s.rb))
  | 0, s => by
    refine ⟨List.Perm.refl _, rfl, rfl, fun h => h, fun h => h, fun h => h, fun h => ⟨h, le_refl _, ?_⟩⟩
    intro it hit
    exact Or.inl hit
  | Nat.succ k, s => by
    rcases hscan : (scanBest dist prefs mode s.current s.day_time s.rb s.remaining 0 (none, -(1e9 : ℚ))).1 with _ | j
    · have hrw : runSlots dist prefs mode (Nat.succ k) s = s := by
        simp [runSlots, hscan]
      rw [hrw]
      refine ⟨List.Perm.refl _, rfl, rfl, fun h => h, fun h => h, fun h => h, fun h => ⟨h, le_refl _, ?_⟩⟩
      intro it hit
      exact Or.inl hit
    · have hQ : ∃ p, s.remaining[j]? = some p ∧ ¬(poiCost p > s.rb) ∧
          s.day_time + (travelOf dist mode s.current p).1 + poiDur p ≤ daily_time_budget := by
        refine scanBest_spec dist prefs mode s.current s.day_time s.rb
          (fun j => ∃ p, s.remaining[j]? = some p ∧ ¬(poiCost p > s.rb) ∧
            s.day_time + (travelOf dist mode s.current p).1 + poiDur p ≤ daily_time_budget)
          s.remaining 0 (none, -(1e9 : ℚ)) (by simp) ?_ j hscan
        intro k' p hk hc ht
        exact ⟨p, by simpa using hk, hc, ht⟩
      obtain ⟨p, hp, hc, ht⟩ := hQ
      have hrw : runSlots dist prefs mode (Nat.succ k) s
          = runSlots dist prefs mode k (slotStep dist mode s p j) := by
        simp [runSlots, hscan, hp]
      obtain ⟨ihA, ihB, ihC, ihD, ihE, ihF, ihG⟩ := runSlots_master dist prefs mode k (slotStep dist mode s p j)
      rw [hrw]
      set t := travelOf dist mode s.current p with htdef
      have hstep_items : (slotStep dist mode s p j).day_items = s.day_items ++ [⟨p, t.1, round2 t.2⟩] := rfl
      have hstep_rem : (slotStep dist mode s p j).remaining = s.remaining.eraseIdx j := rfl
      have hstep_rb : (slotStep dist mode s p j).rb = s.rb - poiCost p := rfl
      have hstep_dc : (slotStep dist mode s p j).day_cost = s.day_cost + poiCost p := rfl
      have hstep_dt : (slotStep dist mode s p j).day_time = s.day_time + t.1 + poiDur p := rfl
      have hstep_cur : (slotStep dist mode s p j).current = some ⟨p, t.1, round2 t.2⟩ := rfl
      have hpm : p ∈ s.remaining := List.getElem?_mem hp
      have hperm_step : (slotStep dist mode s p j).day_items.map Item.poi ++ (slotStep dist mode s p j).remaining
          ~ s.day_items.map Item.poi ++ s.remaining := by
        rw [hstep_items, hstep_rem]
        have h1 : p :: s.remaining.eraseIdx j ~ s.remaining := cons_eraseIdx_perm s.remaining j p hp
        calc (s.day_items ++ [(⟨p, t.1, round2 t.2⟩ : Item)]).map Item.poi ++ s.remaining.eraseIdx j
            = s.day_items.map Item.poi ++ (p :: s.remaining.eraseIdx j) := by simp
          _ ~ s.day_items.map Item.poi ++ s.remaining := h1.append_left _
      refine ⟨ihA.trans hperm_step, ?_, ?_, ?_, ?_, ?_, ?_⟩
      · rw [ihB, hstep_rb, hstep_dc]; ring
      · rw [ihC, hstep_items, hstep_dc, itemListCost_append]
        have : itemCost ⟨p, t.1, round2 t.2⟩ = poiCost p := rfl
        rw [this]; ring
      · intro h0
        refine ihD ?_
        rw [hstep_dt]
        exact ht
      · intro h0
        refine ihE ?_
        rw [hstep_rb]
        push_neg at hc
        linarith
      · intro hinv
        refine ihF ?_
        obtain ⟨hiff, hhead⟩ := hinv
        constructor
        · rw [hstep_items, hstep_cur]
          simp
        · rw [hstep_items]
          rcases hsi : s.day_items with _ | ⟨a, rest⟩
          · intro e he
            have hcur : s.current = none := hiff.mp hsi
            have htz : t = (0, 0) := by rw [htdef, hcur]; rfl
            simp only [hsi, List.nil_append, List.head?_cons, Option.some.injEq] at he
            subst he
            rw [htz]
            exact ⟨rfl, round2_zero⟩
          · intro e he
            simp only [List.cons_append, List.head?_cons, Option.some.injEq] at he
            subst he
            apply hhead
            rw [hsi]
            rfl
      · intro hnn
        have hnn2 : ∀ q ∈ (slotStep dist mode s p j).remaining, 0 ≤ poiCost q := by
          rw [hstep_rem]
          intro q hq
          exact hnn q ((s.remaining.eraseIdx_sublist j).subset hq)
        obtain ⟨g1, g2, g3⟩ := ihG hnn2
        refine ⟨g1, ?_, ?_⟩
        · rw [hstep_rb] at g2
          have hpc : 0 ≤ poiCost p := hnn p hpm
          linarith
        · intro it hit
          rcases g3 it hit with hold | hle
          · rw [hstep_items] at hold
            rcases List.mem_append.mp hold with h1 | h2
            · exact Or.inl h1
            · simp only [List.mem_singleton] at h2
              subst h2
              push_neg at hc
              exact Or.inr hc
          · rw [hstep_rb] at hle
            have hpc : 0 ≤ poiCost p := hnn p hpm
            exact Or.inr (by linarith)

/-! ### The day-loop master invariant -/

theorem itemListCost_append2 (a b : List Item) :
    itemListCost (a ++ b) = itemListCost a + itemListCost b := by
  simp [itemListCost]

theorem allItems_cons (day : Day) (acc : List Day) :
    allItems (day :: acc) = day.items ++ allItems acc := by
  simp [allItems]

theorem allItems_reverse_perm (l : List Day) : allItems l.reverse ~ allItems l := by
  unfold allItems
  rw [List.map_reverse]
  exact (List.reverse_perm _).flatten

theorem planLoop_master (dist : DistFn) (prefs : Prefs) (mode : String) (slots : ℕ)
    (start_hour : ℤ) :
    ∀ (n d : ℕ) (rb : ℚ) (pool : List POI) (tc : ℚ) (tt : ℤ) (acc : List Day),
      ∃ poolF : List POI,
        ((allItems (planLoop dist prefs mode slots start_hour n d rb pool tc tt acc).1).map Item.poi ++ poolF
          ~ (allItems acc).map Item.poi ++ pool) ∧
        (planLoop dist prefs mode slots start_hour n d rb pool tc tt acc).2.2.2
          + ((planLoop dist prefs mode slots start_hour n d rb pool tc tt acc).2.1 - tc) = rb ∧
        (planLoop dist prefs mode slots start_hour n d rb pool tc tt acc).2.1
          - itemListCost (allItems (planLoop dist prefs mode slots start_hour n d rb pool tc tt acc).1)
          = tc - itemListCost (allItems acc) ∧
        (∀ day ∈ (planLoop dist prefs mode slots start_hour n d rb pool tc tt acc).1,
          day ∈ acc ∨ GoodDay start_hour day) ∧
        (0 ≤ rb → 0 ≤ (planLoop dist prefs mode slots start_hour n d rb pool tc tt acc).2.2.2) ∧
        ((∀ p ∈ pool, 0 ≤ poiCost p) →
          (planLoop dist prefs mode slots start_hour n d rb pool tc tt acc).2.2.2 ≤ rb ∧
          (∀ it ∈ allItems (planLoop dist prefs mode slots start_hour n d rb pool tc tt acc).1,
            it ∈ allItems acc ∨ itemCost it ≤ rb))
  | 0, d, rb, pool, tc, tt, acc => by
    simp only [planLoop]
    refine ⟨pool, ?_, by ring, ?_, ?_, fun h => h, fun _ => ⟨le_refl _, ?_⟩⟩
    · exact ((allItems_reverse_perm acc).map Item.poi).append_right pool
    · have hperm : (allItems acc.reverse).map itemCost ~ (allItems acc).map itemCost :=
        (allItems_reverse_perm acc).map itemCost
      have heq : itemListCost (allItems acc.reverse) = itemListCost (allItems acc) := hperm.sum_eq
      rw [heq]
    · intro day hday
      exact Or.inl (List.mem_reverse.mp hday)
    · intro it hit
      exact Or.inl ((allItems_reverse_perm acc).mem_iff.mp hit)
  | Nat.succ n, d, rb, pool, tc, tt, acc => by
    have hsortp : sortDescBy (fun p => score_poi p prefs) pool ~ pool :=
      sortDescBy_perm (fun p => score_poi p prefs) pool
    set sorted := sortDescBy (fun p => score_poi p prefs) pool with hsorted
    set s := runSlots dist prefs mode slots ⟨[], 0, 0, none, rb, sorted⟩ with hs
    set day : Day := ⟨(d : ℤ) + 1, s.day_items, buildTimeline start_hour s.day_items,
      round2 s.day_cost, s.day_time⟩ with hday
    have hrw : planLoop dist prefs mode slots start_hour (Nat.succ n) d rb pool tc tt acc
        = planLoop dist prefs mode slots start_hour n (d + 1) s.rb s.remaining
            (tc + s.day_cost) (tt + s.day_time) (day :: acc) := rfl
    obtain ⟨rsA, rsB, rsC, rsD, rsE, rsF, rsG⟩ :=
      runSlots_master dist prefs mode slots ⟨[], 0, 0, none, rb, sorted⟩
    rw [← hs] at rsA rsB rsC rsD rsE rsF rsG
    dsimp only at rsA rsB rsC rsD rsE rsF rsG
    obtain ⟨poolF, ihA, ihB, ihC, ihD, ihE, ihF⟩ :=
      planLoop_master dist prefs mode slots start_hour n (d + 1) s.rb s.remaining
        (tc + s.day_cost) (tt + s.day_time) (day :: acc)
    rw [hrw]
    refine ⟨poolF, ?_, ?_, ?_, ?_, ?_, ?_⟩
    · refine ihA.trans ?_
      rw [allItems_cons]
      have hshuffle : (day.items ++ allItems acc).map Item.poi ++ s.remaining
          ~ (allItems acc).map Item.poi ++ (day.items.map Item.poi ++ s.remaining) := by
        rw [List.map_append, List.append_assoc]
        exact List.perm_append_comm_assoc _ _ _
      refine hshuffle.trans ?_
      refine List.Perm.append_left _ ?_
      have : day.items = s.day_items := rfl
      rw [this]
      exact rsA.trans hsortp
    · have hb : s.rb + s.day_cost = rb := by simpa using rsB
      linarith [ihB]
    · have hc : s.day_cost = itemListCost s.day_items := by
        have h := rsC
        simp only [itemListCost, List.map_nil, List.sum_nil] at h ⊢
        linarith
      rw [allItems_cons, itemListCost_append2] at ihC
      have : day.items = s.day_items := rfl
      rw [this] at ihC
      linarith [ihC]
    · intro day' hday'
      rcases ihD day' hday' with hin | hgood
      · rcases List.mem_cons.mp hin with heq | hin2
        · subst heq
          right
          refine ⟨?_, rfl, ?_⟩
          · exact rsD (by norm_num [daily_time_budget])
          · have hsinv : SInv ⟨[], 0, 0, none, rb, sorted⟩ := by
              constructor
              · simp
              · intro e he
                simp at he
            exact (rsF hsinv).2
        · exact Or.inl hin2
      · exact Or.inr hgood
    · intro h0
      exact ihE (rsE h0)
    · intro hnn
      have hnn_sorted : ∀ p ∈ sorted, 0 ≤ poiCost p := fun p hp => hnn p (hsortp.subset hp)
      obtain ⟨g1, g2, g3⟩ := rsG hnn_sorted
      obtain ⟨f1, f2⟩ := ihF g1
      constructor
      · linarith
      · intro it hit
        rcases f2 it hit with hin | hle
        · rw [allItems_cons] at hin
          rcases List.mem_append.mp hin with h1 | h2
          · have : day.items = s.day_items := rfl
            rw [this] at h1
            rcases g3 it h1 with habs | hle2
            · simp at habs
            · exact Or.inr hle2
          · exact Or.inl h2
        · exact Or.inr (by linarith)

/-! ### Timeline walk lemmas -/

theorem timelineGo_align :
    ∀ (items : List Item) (prev : Option Item) (cursor : ℤ) (i : ℕ) (e : TEntry),
      (timelineGo prev cursor items)[i]? = some e →
      ∃ it, items[i]? = some it ∧ e.end_min = e.start_min + poiDur it.poi ∧
        e.travel_from_prev_mins = it.travel_from_prev_mins ∧
        e.travel_from_prev_km = it.travel_from_prev_km
  | [], _, _, i, e => by intro h; simp [timelineGo] at h
  | it :: rest, prev, cursor, 0, e => by
    intro h
    simp only [timelineGo, List.getElem?_cons_zero, Option.some.injEq] at h
    subst h
    exact ⟨it, by simp, rfl, rfl, rfl⟩
  | it :: rest, prev, cursor, Nat.succ i, e => by
    intro h
    simp only [timelineGo, List.getElem?_cons_succ] at h
    obtain ⟨it', h1, h2, h3, h4⟩ := timelineGo_align rest (some it) _ i e h
    exact ⟨it', by simpa using h1, h2, h3, h4⟩

theorem timelineGo_first_some :
    ∀ (items : List Item) (pv : Item) (cursor : ℤ) (e : TEntry),
      (timelineGo (some pv) cursor items)[0]? = some e →
      e.start_min = cursor + e.travel_from_prev_mins
  | [], _, _, e => by intro h; simp [timelineGo] at h
  | it :: rest, pv, cursor, e => by
    intro h
    simp only [timelineGo, List.getElem?_cons_zero, Option.some.injEq] at h
    subst h
    rfl

theorem timelineGo_first_none :
    ∀ (items : List Item) (cursor : ℤ) (e : TEntry),
      (timelineGo none cursor items)[0]? = some e → e.start_min = cursor
  | [], _, e => by intro h; simp [timelineGo] at h
  | it :: rest, cursor, e => by
    intro h
    simp only [timelineGo, List.getElem?_cons_zero, Option.some.injEq] at h
    subst h
    rfl

theorem timelineGo_chain :
    ∀ (items : List Item) (prev : Option Item) (cursor : ℤ) (i : ℕ) (e₁ e₂ : TEntry),
      (timelineGo prev cursor items)[i]? = some e₁ →
      (timelineGo prev cursor items)[i + 1]? = some e₂ →
      e₂.start_min = e₁.end_min + e₂.travel_from_prev_mins
  | [], _, _, i, e₁, e₂ => by intro h _; simp [timelineGo] at h
  | it :: rest, prev, cursor, 0, e₁, e₂ => by
    intro h1 h2
    simp only [timelineGo, List.getElem?_cons_zero, List.getElem?_cons_succ, Option.some.injEq] at h1 h2
    subst h1
    have := timelineGo_first_some rest it _ e₂ h2
    simpa [mkEntry] using this
  | it :: rest, prev, cursor, Nat.succ i, e₁, e₂ => by
    intro h1 h2
    simp only [timelineGo, List.getElem?_cons_succ] at h1 h2
    exact timelineGo_chain rest (some it) _ i e₁ e₂ h1 h2

/-! ### Frame lemmas for the heap planner -/

theorem hwrite_ne (h : Heap) (a : ℕ) (o : Obj) (x : ℕ) (hx : x ≠ a) : hwrite h a o x = h x := by
  simp [hwrite, hx]

theorem allocCopies_lt :
    ∀ (os : List Obj) (h : Heap) (b a : ℕ), a < b → allocCopies h b os a = h a
  | [], _, _, _, _ => rfl
  | o :: os, h, b, a, hab => by
    have h1 : allocCopies (hwrite h b o) (b + 1) os a = hwrite h b o a :=
      allocCopies_lt os (hwrite h b o) (b + 1) a (by omega)
    rw [show allocCopies h b (o :: os) = allocCopies (hwrite h b o) (b + 1) os from rfl, h1]
    exact hwrite_ne h b o a (by omega)

theorem runSlotsH_frame (dist : DistFn) (prefs : Prefs) (mode : String) (base : ℕ) :
    ∀ (k : ℕ) (s : DayStateH), (∀ r ∈ s.remaining, base ≤ r) →
      (∀ r ∈ (runSlotsH dist prefs mode k s).remaining, base ≤ r) ∧
      (∀ a, a < base → (runSlotsH dist prefs mode k s).heap a = s.heap a)
  | 0, s, hmem => ⟨hmem, fun _ _ => rfl⟩
  | Nat.succ k, s, hmem => by
    rcases hscan : (scanBestH dist prefs mode s.heap s.current s.day_time s.rb s.remaining 0 (none, -(1e9 : ℚ))).1 with _ | j
    · have hrw : runSlotsH dist prefs mode (Nat.succ k) s = s := by
        simp [runSlotsH, hscan]
      rw [hrw]
      exact ⟨hmem, fun _ _ => rfl⟩
    · rcases hp : s.remaining[j]? with _ | r
      · have hrw : runSlotsH dist prefs mode (Nat.succ k) s = s := by
          simp [runSlotsH, hscan, hp]
        rw [hrw]
        exact ⟨hmem, fun _ _ => rfl⟩
      · have hrmem : r ∈ s.remaining := List.getElem?_mem hp
        have hrbase : base ≤ r := hmem r hrmem
        have hrw : runSlotsH dist prefs mode (Nat.succ k) s
            = runSlotsH dist prefs mode k
                ⟨s.day_items ++ [r],
                 s.day_time + (travelOfH dist mode s.heap s.current (s.heap r).poi).1 + poiDur (s.heap r).poi,
                 s.day_cost + poiCost (s.heap r).poi,
                 some r,
                 s.rb - poiCost (s.heap r).poi,
                 s.remaining.eraseIdx j,
                 hwrite s.heap r ⟨(s.heap r).poi,
                   some (travelOfH dist mode s.heap s.current (s.heap r).poi).1,
                   some (round2 (travelOfH dist mode s.heap s.current (s.heap r).poi).2)⟩⟩ := by
          simp [runSlotsH, hscan, hp]
        rw [hrw]
        obtain ⟨ih1, ih2⟩ := runSlotsH_frame dist prefs mode base k
          ⟨s.day_items ++ [r],
           s.day_time + (travelOfH dist mode s.heap s.current (s.heap r).poi).1 + poiDur (s.heap r).poi,
           s.day_cost + poiCost (s.heap r).poi,
           some r,
           s.rb - poiCost (s.heap r).poi,
           s.remaining.eraseIdx j,
           hwrite s.heap r ⟨(s.heap r).poi,
             some (travelOfH dist mode s.heap s.current (s.heap r).poi).1,
             some (round2 (travelOfH dist mode s.heap s.current (s.heap r).poi).2)⟩⟩
          (fun r' hr' => hmem r' ((s.remaining.eraseIdx_sublist j).subset hr'))
        refine ⟨ih1, ?_⟩
        intro a ha
        rw [ih2 a ha]
        exact hwrite_ne s.heap r _ a (by omega)

theorem planLoopH_frame (dist : DistFn) (prefs : Prefs) (mode : String) (slots : ℕ)
    (start_hour : ℤ) (base : ℕ) :
    ∀ (n d : ℕ) (rb : ℚ) (pool : List ℕ) (h : Heap) (tc : ℚ) (tt : ℤ) (acc : List DayH),
      (∀ r ∈ pool, base ≤ r) →
      ∀ a, a < base →
        (planLoopH dist prefs mode slots start_hour n d rb pool h tc tt acc).2 a = h a
  | 0, _, _, _, _, _, _, _ => fun _ _ _ => rfl
  | Nat.succ n, d, rb, pool, h, tc, tt, acc => by
    intro hmem a ha
    have hsortp : sortDescBy (fun r => score_poi (h r).poi prefs) pool ~ pool :=
      sortDescBy_perm _ pool
    set sorted := sortDescBy (fun r => score_poi (h r).poi prefs) pool with hsorted
    set s := runSlotsH dist prefs mode slots ⟨[], 0, 0, none, rb, sorted, h⟩ with hs
    have hmem_sorted : ∀ r ∈ sorted, base ≤ r := fun r hr => hmem r (hsortp.subset hr)
    obtain ⟨f1, f2⟩ := runSlotsH_frame dist prefs mode base slots ⟨[], 0, 0, none, rb, sorted, h⟩ hmem_sorted
    rw [← hs] at f1 f2
    dsimp only at f1 f2
    have hrw : planLoopH dist prefs mode slots start_hour (Nat.succ n) d rb pool h tc tt acc
        = planLoopH dist prefs mode slots start_hour n (d + 1) s.rb s.remaining s.heap
            (tc + s.day_cost) (tt + s.day_time)
            (⟨(d : ℤ) + 1, s.day_items, timelineGoH s.heap none (start_hour * 60) s.day_items,
              round2 s.day_cost, s.day_time⟩ :: acc) := rfl
    rw [hrw]
    rw [planLoopH_frame dist prefs mode slots start_hour base n (d + 1) s.rb s.remaining s.heap
      (tc + s.day_cost) (tt + s.day_time) _ f1 a ha]
    exact f2 a ha

/-! ## The claims -/

/-- C7: for every distance `d` and mode string, `travel_minutes_km d mode`
is `round(d / speed * 60 + overhead)` with (4.5 km/h, 3 min) for walk,
(18 km/h, 10 min) for transit, and (28 km/h, 8 min) for drive and for
every unknown mode; in particular `travel_minutes_km 0 "drive" = 8` and
`travel_minutes_km 28 "drive" = 68`. -/
theorem C7_travel_minutes (d : ℚ) (mode : String) :
    (mode = "walk" → travel_minutes_km d mode = pythonRound (d / 4.5 * 60 + 3)) ∧
    (mode = "transit" → travel_minutes_km d mode = pythonRound (d / 18 * 60 + 10)) ∧
    (mode ≠ "walk" → mode ≠ "transit" → travel_minutes_km d mode = pythonRound (d / 28 * 60 + 8)) ∧
    travel_minutes_km 0 "drive" = 8 ∧
    travel_minutes_km 28 "drive" = 68 := by
  have e1 : ("drive" == "walk") = false := by decide
  have e2 : ("drive" == "transit") = false := by decide
  have e3 : ("drive" == "drive") = true := by decide
  refine ⟨?_, ?_, ?_,
    by norm_num [travel_minutes_km, List.lookup, pythonRound, round_eq, e1, e2, e3],
    by norm_num [travel_minutes_km, List.lookup, pythonRound, round_eq, e1, e2, e3]⟩
  · intro h
    subst h
    have w1 : ("walk" == "walk") = true := by decide
    simp only [travel_minutes_km, List.lookup, w1, Option.getD_some]
    congr 1
    norm_num
  · intro h
    subst h
    have t1 : ("transit" == "walk") = false := by decide
    have t2 : ("transit" == "transit") = true := by decide
    simp only [travel_minutes_km, List.lookup, t1, t2, Option.getD_some]
    congr 1
    norm_num
  · intro h1 h2
    have b1 : (mode == "walk") = false := beq_eq_false_iff_ne.mpr h1
    have b2 : (mode == "transit") = false := beq_eq_false_iff_ne.mpr h2
    by_cases h3 : mode = "drive"
    · subst h3
      simp only [travel_minutes_km, List.lookup, e1, e2, e3, Option.getD_some]
      congr 1
      norm_num
    · have b3 : (mode == "drive") = false := beq_eq_false_iff_ne.mpr h3
      simp only [travel_minutes_km, List.lookup, b1, b2, b3, Option.getD_none]
      congr 1
      norm_num

theorem C7_travel_minutes_w :
    travel_minutes_km 1 "walk" = pythonRound (1 / 4.5 * 60 + 3) ∧
    travel_minutes_km 9 "transit" = pythonRound (9 / 18 * 60 + 10) ∧
    travel_minutes_km 5 "bike" = pythonRound (5 / 28 * 60 + 8) :=
  ⟨(C7_travel_minutes 1 "walk").1 rfl,
   (C7_travel_minutes 9 "transit").2.1 rfl,
   (C7_travel_minutes 5 "bike").2.2.1 (by decide) (by decide)⟩

/-- C8: for every input with `days ≤ 0`, `plan_itinerary` returns an
itinerary with an empty day sequence, zero total cost and zero total
time (the `range(days)` loop body never runs). -/
theorem C8_nonpositive_days (dist : DistFn) (pois : List POI) (days : ℤ) (budget : ℚ)
    (prefs : Prefs) (pace : String) (start_hour : ℤ) (travel_mode : String)
    (hdays : days ≤ 0) :
    (plan_itinerary dist pois days budget prefs pace start_hour travel_mode).days = [] ∧
    (plan_itinerary dist pois days budget prefs pace start_hour travel_mode).total_cost = 0 ∧
    (plan_itinerary dist pois days budget prefs pace start_hour travel_mode).total_time_mins = 0 := by
  have h0 : days.toNat = 0 := Int.toNat_of_nonpos hdays
  refine ⟨?_, ?_, ?_⟩ <;>
    simp [plan_itinerary, h0, planLoop, round2_zero]

theorem C8_nonpositive_days_w :
    (plan_itinerary dist0 [poiA] (-2) 5 [] "moderate" 10 "drive").days = [] ∧
    (plan_itinerary dist0 [poiA] (-2) 5 [] "moderate" 10 "drive").total_cost = 0 ∧
    (plan_itinerary dist0 [poiA] (-2) 5 [] "moderate" 10 "drive").total_time_mins = 0 :=
  C8_nonpositive_days dist0 [poiA] (-2) 5 [] "moderate" 10 "drive" (by decide)

/-- C6 counterexample: the claimed formula looks the preference weight
up under the POI's category verbatim, but `score_poi` lowercases the
category first (`poi.get("category","").lower()`), so for category
`"Food"` with preference key `"food"` the two differ: `score_poi`
yields `4 + 2·1 = 6` while the claimed formula yields `4 + 2·0 = 4`. -/
theorem C6_cex :
    score_poi poiCap [("food", 1)] ≠
      poiCap.rating.getD 4 + prefGet [("food", 1)] (poiCap.category.getD "") * 2 := by
  have l1 : strLower "Food" = "food" := by decide
  have f1 : ("food" == "food") = true := by decide
  have f2 : ("Food" == "food") = false := by decide
  norm_num [score_poi, prefGet, poiCap, List.lookup, l1, f1, f2]

/-- C6 (amended): `score_poi poi prefs` is the POI's rating (default
4.0 when absent) plus twice the preference weight looked up under the
LOWERCASED category (default weight 0.0 when the lowercased category is
absent from the mapping, default category the empty string). -/
theorem C6_score_formula (poi : POI) (prefs : Prefs) :
    score_poi poi prefs
      = poi.rating.getD 4 + 2 * ((prefs.lookup (strLower (poi.category.getD ""))).getD 0) := by
  unfold score_poi prefGet
  ring

/-- C2: across one `plan_itinerary` run, each POI value occurs in the
itinerary's items at most as often as it occurs in the input pool — in
particular a POI supplied once is scheduled at most once across all
days and slots (the chosen candidate is popped from the shared pool and
never reused). -/
theorem C2_no_duplicates (dist : DistFn) (pois : List POI) (days : ℤ) (budget : ℚ)
    (prefs : Prefs) (pace : String) (start_hour : ℤ) (travel_mode : String) (p : POI) :
    ((allItems (plan_itinerary dist pois days budget prefs pace start_hour travel_mode).days).map Item.poi).count p
      ≤ pois.count p := by
  obtain ⟨poolF, hA, _, _, _, _, _⟩ := planLoop_master dist prefs travel_mode
    ((([("relaxed", 3), ("moderate", 4), ("packed", 5)] : List (String × ℕ)).lookup pace).getD 4)
    start_hour days.toNat 0 budget pois 0 0 []
  have hdays : (plan_itinerary dist pois days budget prefs pace start_hour travel_mode).days
      = (planLoop dist prefs travel_mode
          ((([("relaxed", 3), ("moderate", 4), ("packed", 5)] : List (String × ℕ)).lookup pace).getD 4)
          start_hour days.toNat 0 budget pois 0 0 []).1 := rfl
  rw [hdays]
  have hA' : (allItems (planLoop dist prefs travel_mode
      ((([("relaxed", 3), ("moderate", 4), ("packed", 5)] : List (String × ℕ)).lookup pace).getD 4)
      start_hour days.toNat 0 budget pois 0 0 []).1).map Item.poi ++ poolF ~ pois := by
    simpa [allItems] using hA
  have hsub : (allItems (planLoop dist prefs travel_mode
      ((([("relaxed", 3), ("moderate", 4), ("packed", 5)] : List (String × ℕ)).lookup pace).getD 4)
      start_hour days.toNat 0 budget pois 0 0 []).1).map Item.poi <+~ pois :=
    ((List.sublist_append_left _ _).subperm).trans hA'.subperm
  exact hsub.count_le p

/-- C3: every day record of every `plan_itinerary` output satisfies
`day_time_mins ≤ 480` — the fixed per-day ceiling, reset each day and
independent of `start_hour` (which the statement quantifies over
freely). -/
theorem C3_day_time_bound (dist : DistFn) (pois : List POI) (days : ℤ) (budget : ℚ)
    (prefs : Prefs) (pace : String) (start_hour : ℤ) (travel_mode : String) :
    ∀ day ∈ (plan_itinerary dist pois days budget prefs pace start_hour travel_mode).days,
      day.day_time_mins ≤ 480 := by
  intro day hday
  obtain ⟨poolF, _, _, _, hD, _, _⟩ := planLoop_master dist prefs travel_mode
    ((([("relaxed", 3), ("moderate", 4), ("packed", 5)] : List (String × ℕ)).lookup pace).getD 4)
    start_hour days.toNat 0 budget pois 0 0 []
  have hdays : (plan_itinerary dist pois days budget prefs pace start_hour travel_mode).days
      = (planLoop dist prefs travel_mode
          ((([("relaxed", 3), ("moderate", 4), ("packed", 5)] : List (String × ℕ)).lookup pace).getD 4)
          start_hour days.toNat 0 budget pois 0 0 []).1 := rfl
  rw [hdays] at hday
  rcases hD day hday with habs | hgood
  · simp at habs
  · have := hgood.1
    simpa [daily_time_budget] using this

theorem C3_day_time_bound_w : (⟨1, [⟨poiA, 0, 0⟩], [entryA], 10, 30⟩ : Day).day_time_mins ≤ 480 := by
  refine C3_day_time_bound dist0 [poiA] 1 100 [] "moderate" 10 "drive" _ ?_
  have e1 : ("drive" == "walk") = false := by decide
  have e2 : ("drive" == "transit") = false := by decide
  have e3 : ("drive" == "drive") = true := by decide
  have e4 : ("moderate" == "relaxed") = false := by decide
  have e5 : ("moderate" == "moderate") = true := by decide
  norm_num [plan_itinerary, planLoop, runSlots, scanBest, slotStep, sortDescBy, insertDescBy,
    travelOf, poiCost, poiDur, score_poi, prefGet, buildTimeline, timelineGo, mkEntry,
    round2, pythonRound, round_eq, daily_time_budget, List.lookup, dist0, poiA, entryA,
    e1, e2, e3, e4, e5]

/-- C4: with a non-negative budget and non-negative candidate costs, a
candidate whose cost exceeds the remaining trip budget is never
selected, so the remaining budget never goes negative: the output
`remaining_budget` is non-negative, the exact sum of selected costs is
at most the initial budget, and every selected item's cost is at most
the initial budget. -/
theorem C4_budget_never_negative (dist : DistFn) (pois : List POI) (days : ℤ) (budget : ℚ)
    (prefs : Prefs) (pace : String) (start_hour : ℤ) (travel_mode : String)
    (hb : 0 ≤ budget) (hc : ∀ p ∈ pois, 0 ≤ poiCost p) :
    0 ≤ (plan_itinerary dist pois days budget prefs pace start_hour travel_mode).remaining_budget ∧
    itemListCost (allItems (plan_itinerary dist pois days budget prefs pace start_hour travel_mode).days)
      ≤ budget ∧
    ∀ it ∈ allItems (plan_itinerary dist pois days budget prefs pace start_hour travel_mode).days,
      itemCost it ≤ budget := by
  obtain ⟨poolF, hA, hB, hC, hD, hE, hF⟩ := planLoop_master dist prefs travel_mode
    ((([("relaxed", 3), ("moderate", 4), ("packed", 5)] : List (String × ℕ)).lookup pace).getD 4)
    start_hour days.toNat 0 budget pois 0 0 []
  have hdays : (plan_itinerary dist pois days budget prefs pace start_hour travel_mode).days
      = (planLoop dist prefs travel_mode
          ((([("relaxed", 3), ("moderate", 4), ("packed", 5)] : List (String × ℕ)).lookup pace).getD 4)
          start_hour days.toNat 0 budget pois 0 0 []).1 := rfl
  have hrb : (plan_itinerary dist pois days budget prefs pace start_hour travel_mode).remaining_budget
      = round2 ((planLoop dist prefs travel_mode
          ((([("relaxed", 3), ("moderate", 4), ("packed", 5)] : List (String × ℕ)).lookup pace).getD 4)
          start_hour days.toNat 0 budget pois 0 0 []).2.2.2) := rfl
  have hnil : itemListCost (allItems ([] : List Day)) = 0 := by simp [allItems, itemListCost]
  rw [hnil] at hC
  refine ⟨?_, ?_, ?_⟩
  · rw [hrb]
    exact round2_nonneg (hE hb)
  · rw [hdays]
    have h1 := hE hb
    linarith [hB, hC]
  · rw [hdays]
    intro it hit
    obtain ⟨_, hitems⟩ := hF hc
    rcases hitems it hit with habs | hle
    · simp [allItems] at habs
    · exact hle

theorem C4_budget_never_negative_w :
    0 ≤ (plan_itinerary dist0 [poiA] 1 100 [] "moderate" 10 "drive").remaining_budget ∧
    itemListCost (allItems (plan_itinerary dist0 [poiA] 1 100 [] "moderate" 10 "drive").days) ≤ 100 :=
  ⟨(C4_budget_never_negative dist0 [poiA] 1 100 [] "moderate" 10 "drive" (by norm_num)
      (by intro p hp; simp only [List.mem_singleton] at hp; subst hp; norm_num [poiCost, poiA])).1,
   (C4_budget_never_negative dist0 [poiA] 1 100 [] "moderate" 10 "drive" (by norm_num)
      (by intro p hp; simp only [List.mem_singleton] at hp; subst hp; norm_num [poiCost, poiA])).2.1⟩

/-- C1 counterexample: with one candidate of cost `0.014` and budget
`0.017`, the planner selects it, reports `total_cost = round(0.014, 2)
= 0.01` and `remaining_budget = round(0.017 - 0.014, 2) = 0.0`, but
`round(budget - total_cost, 2) = round(0.007, 2) = 0.01 ≠ 0.0`: the
output `remaining_budget` is rounded from the UNROUNDED running budget,
not recomputed from the rounded `total_cost` field. -/
theorem C1_cex :
    ¬ ((plan_itinerary dist0 [poiSub] 1 (17/1000) [] "moderate" 10 "drive").remaining_budget
        = round2 (17/1000
            - (plan_itinerary dist0 [poiSub] 1 (17/1000) [] "moderate" 10 "drive").total_cost)) := by
  have e1 : ("drive" == "walk") = false := by decide
  have e2 : ("drive" == "transit") = false := by decide
  have e3 : ("drive" == "drive") = true := by decide
  have e4 : ("moderate" == "relaxed") = false := by decide
  have e5 : ("moderate" == "moderate") = true := by decide
  norm_num [plan_itinerary, planLoop, runSlots, scanBest, slotStep, sortDescBy, insertDescBy,
    travelOf, poiCost, poiDur, score_poi, prefGet, buildTimeline, timelineGo, mkEntry,
    round2, pythonRound, round_eq, daily_time_budget, List.lookup, dist0, poiSub,
    e1, e2, e3, e4, e5]

/-- C1 (amended): the output `remaining_budget` equals
`round(budget - S, 2)` where `S` is the exact (unrounded) sum of the
selected items' costs; the output `total_cost` equals `round(S, 2)`;
and if every candidate cost is non-negative then `total_cost ≥ 0`.
(The equality `remaining_budget = round(budget - total_cost, 2)` with
the ROUNDED `total_cost` field fails in general — see the
counterexample — though it holds whenever every cost is a whole number
of cents.) -/
theorem C1_budget_consistency (dist : DistFn) (pois : List POI) (days : ℤ) (budget : ℚ)
    (prefs : Prefs) (pace : String) (start_hour : ℤ) (travel_mode : String) :
    (plan_itinerary dist pois days budget prefs pace start_hour travel_mode).remaining_budget
      = round2 (budget
          - itemListCost (allItems (plan_itinerary dist pois days budget prefs pace start_hour travel_mode).days)) ∧
    (plan_itinerary dist pois days budget prefs pace start_hour travel_mode).total_cost
      = round2 (itemListCost (allItems (plan_itinerary dist pois days budget prefs pace start_hour travel_mode).days)) ∧
    ((∀ p ∈ pois, 0 ≤ poiCost p) →
      0 ≤ (plan_itinerary dist pois days budget prefs pace start_hour travel_mode).total_cost) := by
  obtain ⟨poolF, hA, hB, hC, hD, hE, hF⟩ := planLoop_master dist prefs travel_mode
    ((([("relaxed", 3), ("moderate", 4), ("packed", 5)] : List (String × ℕ)).lookup pace).getD 4)
    start_hour days.toNat 0 budget pois 0 0 []
  have hdays : (plan_itinerary dist pois days budget prefs pace start_hour travel_mode).days
      = (planLoop dist prefs travel_mode
          ((([("relaxed", 3), ("moderate", 4), ("packed", 5)] : List (String × ℕ)).lookup pace).getD 4)
          start_hour days.toNat 0 budget pois 0 0 []).1 := rfl
  have hrb : (plan_itinerary dist pois days budget prefs pace start_hour travel_mode).remaining_budget
      = round2 ((planLoop dist prefs travel_mode
          ((([("relaxed", 3), ("moderate", 4), ("packed", 5)] : List (String × ℕ)).lookup pace).getD 4)
          start_hour days.toNat 0 budget pois 0 0 []).2.2.2) := rfl
  have htc : (plan_itinerary dist pois days budget prefs pace start_hour travel_mode).total_cost
      = round2 ((planLoop dist prefs travel_mode
          ((([("relaxed", 3), ("moderate", 4), ("packed", 5)] : List (String × ℕ)).lookup pace).getD 4)
          start_hour days.toNat 0 budget pois 0 0 []).2.1) := rfl
  have hnil : itemListCost (allItems ([] : List Day)) = 0 := by simp [allItems, itemListCost]
  rw [hnil] at hC
  refine ⟨?_, ?_, ?_⟩
  · rw [hrb, hdays]
    congr 1
    linarith [hB, hC]
  · rw [htc, hdays]
    congr 1
    linarith [hC]
  · intro h
    rw [htc]
    apply round2_nonneg
    have hsum : 0 ≤ itemListCost (allItems (planLoop dist prefs travel_mode
        ((([("relaxed", 3), ("moderate", 4), ("packed", 5)] : List (String × ℕ)).lookup pace).getD 4)
        start_hour days.toNat 0 budget pois 0 0 []).1) := by
      apply List.sum_nonneg
      intro x hx
      simp only [List.mem_map] at hx
      obtain ⟨it, hit, hxe⟩ := hx
      subst hxe
      have hmem : it.poi ∈ pois := by
        have h1 : it.poi ∈ (allItems (planLoop dist prefs travel_mode
            ((([("relaxed", 3), ("moderate", 4), ("packed", 5)] : List (String × ℕ)).lookup pace).getD 4)
            start_hour days.toNat 0 budget pois 0 0 []).1).map Item.poi ++ poolF :=
          List.mem_append_left _ (List.mem_map_of_mem Item.poi hit)
        have h2 := hA.subset h1
        simpa [allItems] using h2
      exact h it.poi hmem
    linarith [hsum, hC]

theorem C1_budget_consistency_w :
    0 ≤ (plan_itinerary dist0 [poiA] 1 100 [] "moderate" 10 "drive").total_cost :=
  (C1_budget_consistency dist0 [poiA] 1 100 [] "moderate" 10 "drive").2.2
    (by intro p hp; simp only [List.mem_singleton] at hp; subst hp; norm_num [poiCost, poiA])

/-- C5: in every output day, the first timeline entry starts at
`start_hour * 60` with zero travel-from-previous fields; every
subsequent entry starts at the previous entry's end plus its own
recorded travel minutes; and every entry's `end_min` is its `start_min`
plus the visit duration of the item it renders. -/
theorem C5_timeline_chain (dist : DistFn) (pois : List POI) (days : ℤ) (budget : ℚ)
    (prefs : Prefs) (pace : String) (start_hour : ℤ) (travel_mode : String) :
    ∀ day ∈ (plan_itinerary dist pois days budget prefs pace start_hour travel_mode).days,
      (∀ e, day.timeline[0]? = some e →
        e.start_min = start_hour * 60 ∧ e.travel_from_prev_mins = 0 ∧ e.travel_from_prev_km = 0) ∧
      (∀ (i : ℕ) (e₁ e₂ : TEntry), day.timeline[i]? = some e₁ → day.timeline[i + 1]? = some e₂ →
        e₂.start_min = e₁.end_min + e₂.travel_from_prev_mins) ∧
      (∀ (i : ℕ) (e : TEntry) (it : Item), day.timeline[i]? = some e → day.items[i]? = some it →
        e.end_min = e.start_min + poiDur it.poi) := by
  intro day hday
  obtain ⟨poolF, _, _, _, hD, _, _⟩ := planLoop_master dist prefs travel_mode
    ((([("relaxed", 3), ("moderate", 4), ("packed", 5)] : List (String × ℕ)).lookup pace).getD 4)
    start_hour days.toNat 0 budget pois 0 0 []
  have hdays : (plan_itinerary dist pois days budget prefs pace start_hour travel_mode).days
      = (planLoop dist prefs travel_mode
          ((([("relaxed", 3), ("moderate", 4), ("packed", 5)] : List (String × ℕ)).lookup pace).getD 4)
          start_hour days.toNat 0 budget pois 0 0 []).1 := rfl
  rw [hdays] at hday
  rcases hD day hday with habs | hgood
  · simp at habs
  · obtain ⟨_, htl, hhz⟩ := hgood
    rw [htl]
    unfold buildTimeline
    refine ⟨?_, ?_, ?_⟩
    · intro e he
      have hstart := timelineGo_first_none day.items (start_hour * 60) e he
      obtain ⟨it, hit0, _, htm, hkm⟩ :=
        timelineGo_align day.items none (start_hour * 60) 0 e he
      have hhead : day.items.head? = some it := by
        rw [List.head?_eq_getElem?]
        exact hit0
      obtain ⟨hz1, hz2⟩ := hhz it hhead
      exact ⟨hstart, by rw [htm, hz1], by rw [hkm, hz2]⟩
    · intro i e₁ e₂ h1 h2
      exact timelineGo_chain day.items none (start_hour * 60) i e₁ e₂ h1 h2
    · intro i e it h1 h2
      obtain ⟨it', hit', hend, _, _⟩ :=
        timelineGo_align day.items none (start_hour * 60) i e h1
      rw [h2] at hit'
      obtain rfl : it = it' := by
        simpa using hit'
      exact hend

theorem C5_timeline_chain_w :
    (entryA.start_min = 10 * 60 ∧ entryA.travel_from_prev_mins = 0 ∧ entryA.travel_from_prev_km = 0) ∧
    entryA.end_min = entryA.start_min + poiDur (⟨poiA, 0, 0⟩ : Item).poi := by
  have hmem : dayA ∈ (plan_itinerary dist0 [poiA] 1 100 [] "moderate" 10 "drive").days := by
    have e1 : ("drive" == "walk") = false := by decide
    have e2 : ("drive" == "transit") = false := by decide
    have e3 : ("drive" == "drive") = true := by decide
    have e4 : ("moderate" == "relaxed") = false := by decide
    have e5 : ("moderate" == "moderate") = true := by decide
    norm_num [plan_itinerary, planLoop, runSlots, scanBest, slotStep, sortDescBy, insertDescBy,
      travelOf, poiCost, poiDur, score_poi, prefGet, buildTimeline, timelineGo, mkEntry,
      round2, pythonRound, round_eq, daily_time_budget, List.lookup, dist0, poiA, dayA, entryA,
      e1, e2, e3, e4, e5]
  have h := C5_timeline_chain dist0 [poiA] 1 100 [] "moderate" 10 "drive" dayA hmem
  refine ⟨h.1 entryA ?_, h.2.2 0 entryA ⟨poiA, 0, 0⟩ ?_ ?_⟩
  · simp [dayA]
  · simp [dayA]
  · simp [dayA]

/-- C9: the planner never mutates the caller's POI records.  In the
heap model the caller passes the addresses of its own dicts; line 19
(`remaining = [dict(p) for p in pois]`) copies them to fresh addresses
`base, base+1, …`, and the in-place annotation writes (lines 73–74) hit
only pool members, which all live at the fresh addresses — so after the
run every caller-owned address still holds exactly its original record,
and the same pool can be reused across repeated calls. -/
theorem C9_no_caller_mutation (dist : DistFn) (h0 : Heap) (addrs : List ℕ) (base : ℕ)
    (days : ℤ) (budget : ℚ) (prefs : Prefs) (pace : String) (start_hour : ℤ) (travel_mode : String)
    (hfresh : ∀ a ∈ addrs, a < base) :
    ∀ a ∈ addrs,
      (plan_itinerary_heap dist h0 addrs base days budget prefs pace start_hour travel_mode).2 a
        = h0 a := by
  intro a ha
  have hab : a < base := hfresh a ha
  have hrw : (plan_itinerary_heap dist h0 addrs base days budget prefs pace start_hour travel_mode).2
      = (planLoopH dist prefs travel_mode
          ((([("relaxed", 3), ("moderate", 4), ("packed", 5)] : List (String × ℕ)).lookup pace).getD 4)
          start_hour days.toNat 0 budget
          (List.range' base (addrs.map h0).length)
          (allocCopies h0 base (addrs.map h0)) 0 0 []).2 := rfl
  rw [hrw]
  have hmem : ∀ r ∈ List.range' base (addrs.map h0).length, base ≤ r := by
    intro r hr
    rw [List.mem_range'] at hr
    obtain ⟨i, _, rfl⟩ := hr
    omega
  rw [planLoopH_frame dist prefs travel_mode
    ((([("relaxed", 3), ("moderate", 4), ("packed", 5)] : List (String × ℕ)).lookup pace).getD 4)
    start_hour base days.toNat 0 budget (List.range' base (addrs.map h0).length)
    (allocCopies h0 base (addrs.map h0)) 0 0 [] hmem a hab]
  exact allocCopies_lt (addrs.map h0) h0 base a hab

theorem C9_no_caller_mutation_w :
    (plan_itinerary_heap dist0 heapA [0] 1 1 0 [] "moderate" 10 "drive").2 0 = heapA 0 :=
  C9_no_caller_mutation dist0 heapA [0] 1 1 0 [] "moderate" 10 "drive" (by decide) 0 (by decide)

/-- Helper for C10: planning a single POI whose `avg_cost`,
`visit_duration_mins` and `rating` keys are all absent, for one day
with budget 0, places that POI (cost defaulted to 0 passes the budget
check) with a 60-minute default visit duration. -/
theorem plan_single_default (dist : DistFn) (nm cat : Option String) (la lo : ℚ) :
    plan_itinerary dist [⟨nm, cat, la, lo, none, none, none⟩] 1 0 [] "moderate" 10 "drive"
      = ⟨[⟨1, [⟨⟨nm, cat, la, lo, none, none, none⟩, 0, 0⟩],
           [⟨nm.getD "Unknown", cat.getD "other", 600, 660, 0, 0, la, lo, 0⟩],
           0, 60⟩], 0, 60, 0⟩ := by
  have e4 : ("moderate" == "relaxed") = false := by decide
  have e5 : ("moderate" == "moderate") = true := by decide
  norm_num [plan_itinerary, planLoop, runSlots, scanBest, slotStep, sortDescBy, insertDescBy,
    travelOf, poiCost, poiDur, score_poi, prefGet, buildTimeline, timelineGo, mkEntry,
    round2, pythonRound, round_eq, daily_time_budget, List.lookup, e4, e5]

/-- C10: a candidate record with missing fields is planned with the
planner's internal defaults rather than rejected: a missing `avg_cost`
counts as 0.0 in eligibility/cost accumulation, a missing
`visit_duration_mins` counts as 60 minutes, `score_poi` treats a
missing `rating` as 4.0, and such a record is scheduled without error
(even under a zero budget, since its defaulted cost 0 passes the budget
check). -/
theorem C10_missing_field_defaults (dist : DistFn) (p : POI) (prefs : Prefs)
    (h1 : p.avg_cost = none) (h2 : p.visit_duration_mins = none) (h3 : p.rating = none) :
    poiCost p = 0 ∧ poiDur p = 60 ∧
    score_poi p prefs = 4 + prefGet prefs (strLower (p.category.getD "")) * 2 ∧
    plan_itinerary dist [p] 1 0 [] "moderate" 10 "drive"
      = ⟨[⟨1, [⟨p, 0, 0⟩],
           [⟨p.name.getD "Unknown", p.category.getD "other", 600, 660, 0, 0, p.lat, p.lon, 0⟩],
           0, 60⟩], 0, 60, 0⟩ := by
  obtain ⟨nm, cat, la, lo, ac, vd, rt⟩ := p
  dsimp only at h1 h2 h3
  subst h1 h2 h3
  exact ⟨rfl, rfl, rfl, plan_single_default dist nm cat la lo⟩

theorem C10_missing_field_defaults_w :
    poiCost ⟨some "X", none, 1, 2, none, none, none⟩ = 0 ∧
    poiDur ⟨some "X", none, 1, 2, none, none, none⟩ = 60 :=
  ⟨(C10_missing_field_defaults dist0 ⟨some "X", none, 1, 2, none, none, none⟩ [] rfl rfl rfl).1,
   (C10_missing_field_defaults dist0 ⟨some "X", none, 1, 2, none, none, none⟩ [] rfl rfl rfl).2.1⟩
